import Mathlib

set_option maxRecDepth 4000

/-
Verification of the truss static-equilibrium solver (src/truss.py).

The embedding translates the `Truss` class: a joint record is one row of
`self.joints` (fields id, x, y, external force x, external force y,
support flag, stored as floats, modelled by exact rationals), a beam
record is one row of `self.beams` (integers).  The method
`calculate_force` is translated statement by statement: it accumulates
parallel lists `row`, `col`, `data` (modelled as one list of triples,
appended in the same order) and a right-hand-side list `sol`, compares
`max(row)` with `max(col)`, and either raises or delegates to the sparse
solver.  Numeric square roots (`np.sqrt`) are modelled by an explicit
parameter `sq : Q -> Q`; theorems that speak about unit vectors carry a
hypothesis stating that `sq` returns the exact square root on the
radicand involved.  The external solver `scipy.sparse.linalg.spsolve` is
modelled by its contract: an exact rational solver that returns a vector
solving the system (Cramer rule with a final verification check) or
fails.
-/

/-- Failure conditions of the translated code: `indexError` models a Python
IndexError or a scipy failure on negative indices, `maxEmpty` models the
ValueError raised by `max` applied to an empty sequence, and
`notStaticallyDeterminate` models the RuntimeError raised at line 111 of
src/truss.py when the assembled system is not square. -/
inductive Err where
  | indexError : Err
  | maxEmpty : Err
  | notStaticallyDeterminate : Err
  deriving DecidableEq

/-- One row of `self.joints`: index, x position, y position, external force
on x, external force on y, support flag (src/truss.py lines 16-24). -/
structure JointRec where
  jid : ℚ
  x : ℚ
  y : ℚ
  fx : ℚ
  fy : ℚ
  sup : ℚ
  deriving DecidableEq

instance : Inhabited JointRec := ⟨⟨0, 0, 0, 0, 0, 0⟩⟩

/-- One row of `self.beams`: index and the two joint ids (src/truss.py
line 45, converted to integers). -/
structure BeamRec where
  bid : ℤ
  ja : ℤ
  jb : ℤ
  deriving DecidableEq

instance : Inhabited BeamRec := ⟨⟨0, 0, 0⟩⟩

/-- The object state of a `Truss`: the two arrays set by `__init__`. -/
structure Truss where
  joints : List JointRec
  beams : List BeamRec
  deriving DecidableEq

/-- Model of `Truss.__init__` applied to already-parsed numeric tables
(file reading and string splitting are the out-of-scope parsing
collaborator).  The constructor of src/truss.py lines 16-45 only converts
the tables and stores them; it contains no validation of any kind, so the
model is a total function. -/
def mkTruss (joints : List JointRec) (beams : List BeamRec) : Truss :=
  ⟨joints, beams⟩

/-- Python `int(...)` on a float value: truncation toward zero, modelled on
exact rationals. -/
def ratTrunc (q : ℚ) : ℤ := q.num.tdiv q.den

/-- Largest natural whose square is at most `n`, by a bounded scan
(structural recursion, so that concrete witnesses evaluate inside the
kernel). -/
def natSqrtLin (n : ℕ) : ℕ :=
  (List.range (n + 1)).foldl (fun acc k => if k * k ≤ n then max acc k else acc) 0

/-- Model of `np.sqrt` used to instantiate the square-root parameter on
concrete inputs: exact on rationals that are squares of rationals (the
only case the theorems rely on, via explicit exactness hypotheses). -/
def ratSqrt (q : ℚ) : ℚ := (natSqrtLin q.num.toNat : ℚ) / (natSqrtLin q.den : ℚ)

/-- Numpy integer indexing into the joints array: nonnegative indices in
range, negative indices wrap once, anything else raises IndexError. -/
def npGet (l : List JointRec) (i : ℤ) : Except Err JointRec :=
  if 0 ≤ i ∧ i < l.length then .ok (l.getD i.toNat default)
  else if -(l.length : ℤ) ≤ i ∧ i < 0 then .ok (l.getD (i + l.length).toNat default)
  else .error .indexError

/-- Python list item assignment `sol[i] = v`: same index semantics as
`npGet`. -/
def npSet (l : List ℚ) (i : ℤ) (v : ℚ) : Except Err (List ℚ) :=
  if 0 ≤ i ∧ i < l.length then .ok (l.set i.toNat v)
  else if -(l.length : ℤ) ≤ i ∧ i < 0 then .ok (l.set (i + l.length).toNat v)
  else .error .indexError

/-- Python `max` on a list of integers: raises ValueError on the empty
list (modelled by `Err.maxEmpty`). -/
def maxI : List ℤ → Except Err ℤ
  | [] => .error .maxEmpty
  | x :: xs => .ok (xs.foldl max x)

/-- One entry of the sparse-matrix description: row index, column index,
value, mirroring the parallel lists `row`, `col`, `data` of
`calculate_force`. -/
abbrev Triple := ℤ × ℤ × ℚ

def rowsOf (tr : List Triple) : List ℤ := tr.map (fun p => p.1)

def colsOf (tr : List Triple) : List ℤ := tr.map (fun p => p.2.1)

/-- Body of the beam loop of `calculate_force` (src/truss.py lines 57-86)
for the beam with loop index `k`: look up the two endpoint joints, form
the four coefficients from the direction vectors divided by the numeric
square root of the squared length, and produce the four appended
(row, col, data) entries in order. -/
def beamEntries (sq : ℚ → ℚ) (joints : List JointRec) (k : ℕ) (br : BeamRec) :
    Except Err (List Triple) :=
  match npGet joints (br.ja - 1) with
  | .error e => .error e
  | .ok j1 =>
    match npGet joints (br.jb - 1) with
    | .error e => .error e
    | .ok j2 =>
      let j1num : ℤ := ratTrunc j1.jid
      let j2num : ℤ := ratTrunc j2.jid
      let j1x := j1.x - j2.x
      let j1y := j1.y - j2.y
      let bj1x := j1x / sq (j1x ^ 2 + j1y ^ 2)
      let bj1y := j1y / sq (j1x ^ 2 + j1y ^ 2)
      let j2x := j2.x - j1.x
      let j2y := j2.y - j1.y
      let bj2x := j2x / sq (j2x ^ 2 + j2y ^ 2)
      let bj2y := j2y / sq (j2x ^ 2 + j2y ^ 2)
      .ok [(j1num * 2 - 2, (k : ℤ), bj1x), (j1num * 2 - 1, (k : ℤ), bj1y),
           (j2num * 2 - 2, (k : ℤ), bj2x), (j2num * 2 - 1, (k : ℤ), bj2y)]

/-- The beam loop `for b in range(self.beams.shape[0])` of
`calculate_force`, accumulating the appended triples in order. -/
def beamLoop (sq : ℚ → ℚ) (joints : List JointRec) : ℕ → List BeamRec → Except Err (List Triple)
  | _, [] => .ok []
  | k, br :: rest =>
    match beamEntries sq joints k br with
    | .error e => .error e
    | .ok es =>
      match beamLoop sq joints (k + 1) rest with
      | .error e => .error e
      | .ok ts => .ok (es ++ ts)

/-- The joint loop of `calculate_force` (src/truss.py lines 90-107): set
the right-hand side for nonzero external forces, and for each supported
joint append the two reaction entries whose column index is
`max(col) + 1` at the time of the append. -/
def jointLoop : List Triple → List ℚ → List JointRec → Except Err (List Triple × List ℚ)
  | tr, sol, [] => .ok (tr, sol)
  | tr, sol, jr :: rest =>
    match (if jr.fx ≠ 0 then npSet sol (ratTrunc jr.jid * 2 - 2) (-jr.fx) else .ok sol) with
    | .error e => .error e
    | .ok sol1 =>
      match (if jr.fy ≠ 0 then npSet sol1 (ratTrunc jr.jid * 2 - 1) (-jr.fy) else .ok sol1) with
      | .error e => .error e
      | .ok sol2 =>
        if jr.sup = 1 then
          match maxI (colsOf tr) with
          | .error e => .error e
          | .ok m =>
            let tr1 := tr ++ [(ratTrunc jr.jid * 2 - 2, m + 1, (1 : ℚ))]
            match maxI (colsOf tr1) with
            | .error e => .error e
            | .ok m2 =>
              jointLoop (tr1 ++ [(ratTrunc jr.jid * 2 - 1, m2 + 1, (1 : ℚ))]) sol2 rest
        else jointLoop tr sol2 rest

/-- Assembly part of `calculate_force` (src/truss.py lines 52-110): the
beam loop, the right-hand-side vector `sol` initialised to
`[0] * (2 * number of joints)`, the joint loop, and the two maxima
`max(row)` and `max(col)` computed for the determinacy comparison and the
matrix shape. -/
def assemble (sq : ℚ → ℚ) (t : Truss) : Except Err (List Triple × List ℚ × ℤ × ℤ) :=
  match beamLoop sq t.joints 0 t.beams with
  | .error e => .error e
  | .ok bt =>
    match jointLoop bt (List.replicate (2 * t.joints.length) 0) t.joints with
    | .error e => .error e
    | .ok (tr, sol) =>
      match maxI (rowsOf tr) with
      | .error e => .error e
      | .ok mr =>
        match maxI (colsOf tr) with
        | .error e => .error e
        | .ok mc => .ok (tr, sol, mr, mc)

/-- The assembled triples of the equilibrium system, when assembly
succeeds. -/
def asmTriples (sq : ℚ → ℚ) (t : Truss) : Except Err (List Triple) :=
  (assemble sq t).map (fun s => s.1)

/-- The shape `(max(row) + 1, max(col) + 1)` of the sparse matrix built at
line 114 of src/truss.py: the row and column count of the assembled
equilibrium system. -/
def asmDims (sq : ℚ → ℚ) (t : Truss) : Except Err (ℤ × ℤ) :=
  (assemble sq t).map (fun s => (s.2.2.1 + 1, s.2.2.2 + 1))

/-- Entry of the CSR matrix built from the triples: scipy sums duplicate
coordinates. -/
def entryAt (tr : List Triple) (i j : ℤ) : ℚ :=
  ((tr.filter (fun p => decide (p.1 = i) && decide (p.2.1 = j))).map (fun p => p.2.2)).sum

/-- Dense view of the `csr_matrix((data, (row, col)), shape=(mr+1, mc+1))`
of src/truss.py line 114. -/
def dense (tr : List Triple) (mr mc : ℤ) : List (List ℚ) :=
  (List.range (mr + 1).toNat).map (fun i =>
    (List.range (mc + 1).toNat).map (fun j => entryAt tr (i : ℤ) (j : ℤ)))

def dotL (r xv : List ℚ) : ℚ := ((r.zip xv).map (fun p => p.1 * p.2)).sum

/-- Matrix-vector product of the dense view, used to state the round-trip
equilibrium property. -/
def matVec (a : List (List ℚ)) (xv : List ℚ) : List ℚ := a.map (fun r => dotL r xv)

/-- Gaussian elimination on an augmented matrix (each row holds the
coefficients followed by the right-hand-side entry), on fuel equal to the
row count: pick the first row with a nonzero leading entry as pivot,
normalise it, eliminate the leading column from the remaining rows,
recurse, and back-substitute.  Returns `none` when no pivot exists
(singular system). -/
def gaussSolve : ℕ → List (List ℚ) → Option (List ℚ)
  | _, [] => some []
  | 0, _ :: _ => none
  | fuel + 1, r :: rs =>
    match (r :: rs).find? (fun row => decide (row.headD 0 ≠ 0)) with
    | none => none
    | some piv =>
      let rest := (r :: rs).eraseP (fun row => decide (row.headD 0 ≠ 0))
      let p := piv.map (fun v => v / piv.headD 0)
      let rest' := rest.map (fun row =>
        ((row.zip p).map (fun q => q.1 - row.headD 0 * q.2)).tail)
      match gaussSolve fuel rest' with
      | none => none
      | some xs =>
        let tl := p.tail
        some ((tl.getLastD 0 - dotL tl.dropLast xs) :: xs)

/-- Model of the external sparse linear solver
`scipy.sparse.linalg.spsolve`, by its contract (spec section 4.4): given a
square system it returns a vector solving it exactly, and fails on a
singular matrix or mismatched dimensions.  Computed by Gaussian
elimination over exact rationals with a final substitution check, so that
a returned vector always satisfies the system. -/
def spsolveModel (a : List (List ℚ)) (b : List ℚ) : Option (List ℚ) :=
  if (a.all (fun r => decide (r.length = a.length))) && decide (b.length = a.length) then
    match gaussSolve a.length ((a.zip b).map (fun p => p.1 ++ [p.2])) with
    | none => none
    | some xv => if matVec a xv = b then some xv else none
  else none

/-- True when some triple carries a negative row or column index; the
scipy matrix constructor rejects such input (uncaught in the source, as
the try block only surrounds the solve). -/
def negGuard (tr : List Triple) : Bool :=
  tr.any (fun p => decide (p.1 < 0) || decide (p.2.1 < 0))

/-- The method `calculate_force` (src/truss.py lines 47-123),
parameterised over the linear solver: assemble; raise the determinacy
RuntimeError when `max(row) != max(col)` (line 110); otherwise build the
matrix and try the solver, returning the first `beams` entries of the
solution on success, and the still-empty `beamforce` list when the solve
raises (the `except` branch at lines 121-122 prints and continues). -/
def calculate_force_with (solver : List (List ℚ) → List ℚ → Option (List ℚ))
    (sq : ℚ → ℚ) (t : Truss) : Except Err (List ℚ) :=
  match assemble sq t with
  | .error e => .error e
  | .ok (tr, sol, mr, mc) =>
    if mr ≠ mc then .error .notStaticallyDeterminate
    else if negGuard tr then .error .indexError
    else
      match solver (dense tr mr mc) sol with
      | some f => .ok (f.take t.beams.length)
      | none => .ok []

/-- The method `calculate_force` with its actual solver. -/
def calculate_force (sq : ℚ → ℚ) (t : Truss) : Except Err (List ℚ) :=
  calculate_force_with spsolveModel sq t

/-- Object-level view of one `calculate_force` call: its result together
with the receiver's state after the call.  The method body (src/truss.py
lines 47-123) assigns no attribute — it only reads `self.joints` and
`self.beams` into fresh local lists — so the post-state is the receiver
unchanged. -/
def calculateForceObj (sq : ℚ → ℚ) (t : Truss) : Except Err (List ℚ × Truss) :=
  match calculate_force sq t with
  | .error e => .error e
  | .ok r => .ok (r, t)

/-- Two consecutive solve requests on the same object, the second one run
on the state left by the first. -/
def twoSolves (sq : ℚ → ℚ) (t : Truss) : Except Err (List ℚ × List ℚ × Truss) :=
  match calculateForceObj sq t with
  | .error e => .error e
  | .ok (r1, t1) =>
    match calculateForceObj sq t1 with
    | .error e => .error e
    | .ok (r2, t2) => .ok (r1, r2, t2)

/-- Well-formed geometry, per the data-model invariants of the spec
(section 3): joint ids form the contiguous range 1..N in table order, and
every beam references existing joint ids. -/
def WF (t : Truss) : Prop :=
  (∀ i < t.joints.length, ratTrunc ((t.joints.getD i default).jid) = (i : ℤ) + 1)
  ∧ (∀ br ∈ t.beams, 1 ≤ br.ja ∧ br.ja ≤ (t.joints.length : ℤ)
      ∧ 1 ≤ br.jb ∧ br.jb ≤ (t.joints.length : ℤ))

instance (t : Truss) : Decidable (WF t) := by
  unfold WF; infer_instance

/-- A helper projection: whether a `calculate_force` outcome is a normal
return (as opposed to a raised exception). -/
def isOkE (e : Except Err (List ℚ)) : Bool :=
  match e with
  | .ok _ => true
  | .error _ => false

/-- A statically solvable example: right-triangle-like geometry with two
supported joints, two beams of rational length (3 and 5) meeting at the
loaded third joint.  Its assembled system is square (6 x 6) and
non-singular. -/
def solvTruss : Truss := mkTruss
  [⟨1, 0, 0, 0, 0, 1⟩, ⟨2, 4, 0, 0, 0, 1⟩, ⟨3, 0, 3, 0, -100, 0⟩]
  [⟨1, 1, 3⟩, ⟨2, 2, 3⟩]

/-- The assembled triples of `solvTruss` (checked against `assemble` by
definitional evaluation in the theorems below). -/
def solvTriples : List Triple :=
  [(0, 0, 0), (1, 0, -1), (4, 0, 0), (5, 0, 1),
   (2, 1, 4/5), (3, 1, -3/5), (4, 1, -4/5), (5, 1, 3/5),
   (0, 2, 1), (1, 3, 1), (2, 4, 1), (3, 5, 1)]

/-- The assembled right-hand side of `solvTruss`. -/
def solvSol : List ℚ := [0, 0, 0, 0, 0, 100]

/-- Scenario 1 of the spec: a single horizontal two-joint beam, joint 1
a supported joint, joint 2 bearing external load (-10, 0). -/
def scen1Truss : Truss := mkTruss
  [⟨1, 0, 0, 0, 0, 1⟩, ⟨2, 1, 0, -10, 0, 0⟩]
  [⟨1, 1, 2⟩]

/-- A square but singular configuration: two identical beams joining the
same pair of joints, one supported joint.  Rows and columns both count 4,
but the two beam columns coincide and one row is zero. -/
def singTruss : Truss := mkTruss
  [⟨1, 0, 0, 0, 0, 1⟩, ⟨2, 1, 0, 0, -1, 0⟩]
  [⟨1, 1, 2⟩, ⟨2, 1, 2⟩]

/-- A well-formed geometry whose highest-numbered joint carries no beam
and no support: the assembled row count is then 4, not 2 x 3. -/
def c5Truss : Truss := mkTruss
  [⟨1, 0, 0, 0, 0, 1⟩, ⟨2, 1, 0, 0, 0, 0⟩, ⟨3, 5, 5, 0, 0, 0⟩]
  [⟨1, 1, 2⟩]

/-- A triangular truss with two supported joints: 6 equations but
3 + 2 * 2 = 7 unknowns, hence not statically determinate for the code. -/
def cw1Truss : Truss := mkTruss
  [⟨1, 0, 0, 0, 0, 1⟩, ⟨2, 4, 0, 0, 0, 1⟩, ⟨3, 4, 3, 0, -100, 0⟩]
  [⟨1, 1, 2⟩, ⟨2, 2, 3⟩, ⟨3, 1, 3⟩]

/-- A geometry with a supported joint and no beams at all. -/
def c9Truss : Truss := mkTruss [⟨1, 0, 0, 0, 0, 1⟩] []

/-- Joint table with two joints at identical coordinates (0, 0): any beam
joining them is degenerate (zero length). -/
def degJoints : List JointRec := [⟨1, 0, 0, 0, 0, 1⟩, ⟨2, 0, 0, -10, 0, 0⟩]

/-- A single beam joining the two coincident joints of `degJoints`. -/
def degBeams : List BeamRec := [⟨1, 1, 2⟩]
/-- Pure form of `beamEntries` under valid joint references (lookups by
`getD`); `beamEntries` agrees with it whenever both referenced ids are in
range. -/
def beamEntriesD (sq : ℚ → ℚ) (joints : List JointRec) (k : ℕ) (br : BeamRec) : List Triple :=
  let j1 := joints.getD (br.ja - 1).toNat default
  let j2 := joints.getD (br.jb - 1).toNat default
  let j1x := j1.x - j2.x
  let j1y := j1.y - j2.y
  let j2x := j2.x - j1.x
  let j2y := j2.y - j1.y
  [(ratTrunc j1.jid * 2 - 2, (k : ℤ), j1x / sq (j1x ^ 2 + j1y ^ 2)),
   (ratTrunc j1.jid * 2 - 1, (k : ℤ), j1y / sq (j1x ^ 2 + j1y ^ 2)),
   (ratTrunc j2.jid * 2 - 2, (k : ℤ), j2x / sq (j2x ^ 2 + j2y ^ 2)),
   (ratTrunc j2.jid * 2 - 1, (k : ℤ), j2y / sq (j2x ^ 2 + j2y ^ 2))]

/-- Pure form of the beam loop under valid joint references. -/
def beamLoopD (sq : ℚ → ℚ) (joints : List JointRec) : ℕ → List BeamRec → List Triple
  | _, [] => []
  | k, br :: rest => beamEntriesD sq joints k br ++ beamLoopD sq joints (k + 1) rest

/-- The reaction entries appended by the joint loop when the running
column maximum on entry is `m`: each supported joint contributes its two
rows with the next two column indices. -/
def reactD : ℤ → List JointRec → List Triple
  | _, [] => []
  | m, jr :: rest =>
    if jr.sup = 1 then
      (ratTrunc jr.jid * 2 - 2, m + 1, (1 : ℚ)) ::
        (ratTrunc jr.jid * 2 - 1, m + 2, (1 : ℚ)) :: reactD (m + 2) rest
    else reactD m rest

/-- Number of supported joints of a joint table. -/
def supCount (js : List JointRec) : ℕ :=
  (js.filter (fun jr => decide (jr.sup = 1))).length

/-- Claim C1: for every geometry whose assembled equilibrium system has
row count `R = max(row) + 1` and column count `C = max(col) + 1` with
`R ≠ C`, `calculate_force` fails with the `notStaticallyDeterminate`
condition, and it does so whatever the linear solver is: the check
precedes any solver invocation. -/
theorem truss_C1 (sq : ℚ → ℚ) (t : Truss) (tr : List Triple) (sol : List ℚ) (mr mc : ℤ)
    (hs : assemble sq t = .ok (tr, sol, mr, mc)) (hne : mr + 1 ≠ mc + 1) :
    calculate_force sq t = .error .notStaticallyDeterminate
    ∧ ∀ solver, calculate_force_with solver sq t = .error .notStaticallyDeterminate := by
  have hmc : mr ≠ mc := by omega
  refine ⟨?_, fun solver => ?_⟩
  · unfold calculate_force calculate_force_with
    rw [hs]
    simp [hmc]
  · unfold calculate_force_with
    rw [hs]
    simp [hmc]

/-- Witness for C1: the triangular truss `cw1Truss` assembles to a 6-row,
7-column system, and `calculate_force` raises the determinacy error for
every solver. -/
theorem truss_C1_witness :
    calculate_force ratSqrt cw1Truss = .error .notStaticallyDeterminate
    ∧ ∀ solver, calculate_force_with solver ratSqrt cw1Truss = .error .notStaticallyDeterminate :=
  truss_C1 ratSqrt cw1Truss _ _ _ _ (by with_unfolding_all rfl) (by with_unfolding_all decide)

/-- Claim C2 (code bug): geometry construction performs no validation at
all.  On an input whose single beam joins two joints with identical
coordinates, `__init__` succeeds and stores the degenerate tables
verbatim instead of failing with an `InvalidGeometry` condition. -/
theorem truss_C2 :
    mkTruss degJoints degBeams = ⟨degJoints, degBeams⟩
    ∧ (degJoints.getD 0 default).x = (degJoints.getD 1 default).x
    ∧ (degJoints.getD 0 default).y = (degJoints.getD 1 default).y
    ∧ (degBeams.getD 0 default).ja = 1 ∧ (degBeams.getD 0 default).jb = 2 :=
  ⟨rfl, rfl, rfl, rfl, rfl⟩

/-- Claim C3 (code bug): on a square (4 x 4) but singular assembled
system, the solve failure is caught and `calculate_force` returns the
still-empty `beamforce` list normally — the caller receives `ok []`, not
a `SingularSystem` failure. -/
theorem truss_C3 :
    asmDims ratSqrt singTruss = .ok (4, 4)
    ∧ calculate_force ratSqrt singTruss = .ok [] := by
  constructor
  · with_unfolding_all rfl
  · with_unfolding_all rfl

/-- Claim C6: when assembly succeeds with a square system and the solver
returns a vector, that vector substituted back into the dense matrix
reproduces the right-hand side exactly, and `calculate_force` returns its
first `beams`-many entries. -/
theorem truss_C6 (sq : ℚ → ℚ) (t : Truss) (tr : List Triple) (sol : List ℚ) (m : ℤ)
    (f : List ℚ)
    (hs : assemble sq t = .ok (tr, sol, m, m))
    (hg : negGuard tr = false)
    (hsol : spsolveModel (dense tr m m) sol = some f) :
    matVec (dense tr m m) f = sol
    ∧ calculate_force sq t = .ok (f.take t.beams.length) := by
  constructor
  · unfold spsolveModel at hsol
    split at hsol
    · split at hsol
      · exact absurd hsol (by simp)
      · split at hsol
        · rename_i hchk
          cases hsol
          exact hchk
        · exact absurd hsol (by simp)
    · exact absurd hsol (by simp)
  · unfold calculate_force calculate_force_with
    rw [hs]
    simp [hg, hsol]

/-- Witness for C6: the solvable truss `solvTruss` assembles to the
concrete 6 x 6 system `solvTriples`, whose solution round-trips and whose
first two entries are the returned beam forces. -/
theorem truss_C6_witness :
    matVec (dense solvTriples 5 5) [100, 0, 0, 100, 0, 0] = solvSol
    ∧ calculate_force ratSqrt solvTruss = .ok (([100, 0, 0, 100, 0, 0] : List ℚ).take solvTruss.beams.length) :=
  truss_C6 ratSqrt solvTruss solvTriples solvSol 5 [100, 0, 0, 100, 0, 0]
    (by with_unfolding_all rfl) (by with_unfolding_all rfl) (by with_unfolding_all rfl)

/-- Claim C7 (counterexample): for the single-beam scenario with one
supported joint and load (-10, 0) at the other joint, `calculate_force`
does not return any force sequence at all. -/
theorem truss_C7_counterexample :
    isOkE (calculate_force ratSqrt scen1Truss) = false := by
  with_unfolding_all rfl

/-- Claim C7 (amended): on that scenario the assembled system is 4 x 3,
so `calculate_force` fails with the `notStaticallyDeterminate` condition
instead of returning a beam force of magnitude 10. -/
theorem truss_C7_amended :
    calculate_force ratSqrt scen1Truss = .error .notStaticallyDeterminate
    ∧ asmDims ratSqrt scen1Truss = .ok (4, 3) := by
  constructor
  · with_unfolding_all rfl
  · with_unfolding_all rfl

/-- Claim C8: a `calculate_force` call leaves the object state unchanged,
and a second solve request on the post-state returns the identical result
again with the state still unchanged (the system is rebuilt fresh, with
no cached mutable state). -/
theorem truss_C8 (sq : ℚ → ℚ) (t : Truss) (r : List ℚ) (t' : Truss)
    (h : calculateForceObj sq t = .ok (r, t')) :
    t' = t ∧ twoSolves sq t = .ok (r, r, t) := by
  have hcf : calculate_force sq t = .ok r ∧ t' = t := by
    unfold calculateForceObj at h
    split at h
    · exact absurd h (by simp)
    · rename_i r0 heq
      rw [Except.ok.injEq, Prod.mk.injEq] at h
      exact ⟨by rw [heq, h.1], h.2.symm⟩
  refine ⟨hcf.2, ?_⟩
  unfold twoSolves calculateForceObj
  simp [hcf.1]

/-- Witness for C8: two consecutive solves on `solvTruss` both return
[100, 0] and leave the object equal to its initial state. -/
theorem truss_C8_witness :
    solvTruss = solvTruss
    ∧ twoSolves ratSqrt solvTruss = .ok ([100, 0], [100, 0], solvTruss) :=
  truss_C8 ratSqrt solvTruss [100, 0] solvTruss (by with_unfolding_all rfl)

/-- Claim C5 (counterexample): a well-formed geometry whose third joint
carries no beam and no support assembles to a 4-row system, not the
claimed 2 x 3 = 6 rows. -/
theorem truss_C5_counterexample :
    WF c5Truss
    ∧ asmDims ratSqrt c5Truss = .ok (4, 3)
    ∧ 2 * (c5Truss.joints.length : ℤ) = 6 := by
  refine ⟨by decide, ?_, by decide⟩
  with_unfolding_all rfl

theorem npGet_in (l : List JointRec) (i : ℤ) (h0 : 0 ≤ i) (h1 : i < l.length) :
    npGet l i = .ok (l.getD i.toNat default) := by
  unfold npGet
  rw [if_pos ⟨h0, h1⟩]

theorem npSet_in (l : List ℚ) (i : ℤ) (v : ℚ) (h0 : 0 ≤ i) (h1 : i < l.length) :
    npSet l i v = .ok (l.set i.toNat v) := by
  unfold npSet
  rw [if_pos ⟨h0, h1⟩]

theorem maxI_append_one (l : List ℤ) (x m : ℤ) (h : maxI l = .ok m) :
    maxI (l ++ [x]) = .ok (max m x) := by
  cases l with
  | nil => simp [maxI] at h
  | cons y ys =>
    simp only [maxI, Except.ok.injEq] at h
    simp only [List.cons_append, maxI, List.foldl_append, h, List.foldl_cons, List.foldl_nil,
      Except.ok.injEq]

theorem foldl_max_le (xs : List ℤ) : ∀ (x m : ℤ), x ≤ m → (∀ y ∈ xs, y ≤ m) →
    xs.foldl max x ≤ m := by
  induction xs with
  | nil => intro x m hx _; simpa using hx
  | cons z zs ih =>
    intro x m hx hall
    simp only [List.foldl_cons]
    exact ih _ m (max_le hx (hall z (by simp))) (fun y hy => hall y (by simp [hy]))

theorem le_foldl_max (xs : List ℤ) : ∀ (x : ℤ),
    x ≤ xs.foldl max x ∧ ∀ y ∈ xs, y ≤ xs.foldl max x := by
  induction xs with
  | nil => intro x; simp
  | cons z zs ih =>
    intro x
    simp only [List.foldl_cons]
    obtain ⟨h1, h2⟩ := ih (max x z)
    refine ⟨le_trans (le_max_left x z) h1, fun y hy => ?_⟩
    rcases List.mem_cons.mp hy with h | h
    · rw [h]
      exact le_trans (le_max_right x z) h1
    · exact h2 y h

theorem maxI_eq_of (l : List ℤ) (m : ℤ) (hmem : m ∈ l) (hle : ∀ y ∈ l, y ≤ m) :
    maxI l = .ok m := by
  cases l with
  | nil => simp at hmem
  | cons x xs =>
    simp only [maxI, Except.ok.injEq]
    refine le_antisymm (foldl_max_le xs x m (hle x (by simp)) (fun y hy => hle y (by simp [hy]))) ?_
    rcases List.mem_cons.mp hmem with h | h
    · exact h ▸ (le_foldl_max xs x).1
    · exact (le_foldl_max xs x).2 m h

theorem maxI_of_ne_nil (l : List ℤ) (h : l ≠ []) : ∃ m, maxI l = .ok m := by
  cases l with
  | nil => exact absurd rfl h
  | cons x xs => exact ⟨xs.foldl max x, rfl⟩

theorem beamEntries_ok (sq : ℚ → ℚ) (joints : List JointRec) (k : ℕ) (br : BeamRec)
    (h1 : 1 ≤ br.ja) (h2 : br.ja ≤ (joints.length : ℤ))
    (h3 : 1 ≤ br.jb) (h4 : br.jb ≤ (joints.length : ℤ)) :
    beamEntries sq joints k br = .ok (beamEntriesD sq joints k br) := by
  unfold beamEntries beamEntriesD
  rw [npGet_in joints (br.ja - 1) (by omega) (by omega),
    npGet_in joints (br.jb - 1) (by omega) (by omega)]

theorem beamLoop_ok (sq : ℚ → ℚ) (joints : List JointRec) (bs : List BeamRec)
    (hb : ∀ br ∈ bs, 1 ≤ br.ja ∧ br.ja ≤ (joints.length : ℤ)
      ∧ 1 ≤ br.jb ∧ br.jb ≤ (joints.length : ℤ)) :
    ∀ k, beamLoop sq joints k bs = .ok (beamLoopD sq joints k bs) := by
  induction bs with
  | nil => intro k; rfl
  | cons br rest ih =>
    intro k
    obtain ⟨h1, h2, h3, h4⟩ := hb br (by simp)
    unfold beamLoop beamLoopD
    rw [beamEntries_ok sq joints k br h1 h2 h3 h4,
      ih (fun b hb2 => hb b (by simp [hb2])) (k + 1)]

theorem beamEntriesD_col (sq : ℚ → ℚ) (joints : List JointRec) (k : ℕ) (br : BeamRec) :
    ∀ p ∈ beamEntriesD sq joints k br, p.2.1 = (k : ℤ) := by
  intro p hp
  simp only [beamEntriesD, List.mem_cons, List.mem_singleton, List.not_mem_nil, or_false] at hp
  rcases hp with h | h | h | h <;> subst h <;> rfl

theorem beamLoopD_col_bound (sq : ℚ → ℚ) (joints : List JointRec) (bs : List BeamRec) :
    ∀ (k : ℕ), ∀ p ∈ beamLoopD sq joints k bs,
      (k : ℤ) ≤ p.2.1 ∧ p.2.1 < (k : ℤ) + bs.length := by
  induction bs with
  | nil => intro k p hp; simp [beamLoopD] at hp
  | cons br rest ih =>
    intro k p hp
    simp only [beamLoopD, List.mem_append] at hp
    rcases hp with h | h
    · have := beamEntriesD_col sq joints k br p h
      simp only [this, List.length_cons]
      constructor
      · omega
      · push_cast
        omega
    · obtain ⟨ha, hb2⟩ := ih (k + 1) p h
      simp only [List.length_cons]
      push_cast at ha hb2 ⊢
      omega

theorem beamEntriesD_ne_nil (sq : ℚ → ℚ) (joints : List JointRec) (k : ℕ) (br : BeamRec) :
    beamEntriesD sq joints k br ≠ [] := by
  simp [beamEntriesD]

theorem beamLoopD_filter (sq : ℚ → ℚ) (joints : List JointRec) (bs : List BeamRec) :
    ∀ (k b : ℕ), k ≤ b → b < k + bs.length →
      (beamLoopD sq joints k bs).filter (fun p => decide (p.2.1 = (b : ℤ)))
        = beamEntriesD sq joints b (bs.getD (b - k) default) := by
  induction bs with
  | nil => intro k b _ h; simp at h; omega
  | cons br rest ih =>
    intro k b hkb hlt
    simp only [beamLoopD, List.filter_append]
    by_cases hbk : b = k
    · subst hbk
      have h1 : (beamEntriesD sq joints b br).filter (fun p => decide (p.2.1 = (b : ℤ)))
          = beamEntriesD sq joints b br :=
        List.filter_eq_self.mpr (fun p hp => by
          simp [beamEntriesD_col sq joints b br p hp])
      have h2 : (beamLoopD sq joints (b + 1) rest).filter (fun p => decide (p.2.1 = (b : ℤ)))
          = [] :=
        List.filter_eq_nil_iff.mpr (fun p hp => by
          have := (beamLoopD_col_bound sq joints rest (b + 1) p hp).1
          simp only [decide_eq_true_eq]
          push_cast at this
          omega)
      simp [h1, h2]
    · have hk1 : k + 1 ≤ b := by omega
      have h1 : (beamEntriesD sq joints k br).filter (fun p => decide (p.2.1 = (b : ℤ)))
          = [] :=
        List.filter_eq_nil_iff.mpr (fun p hp => by
          have := beamEntriesD_col sq joints k br p hp
          simp only [this, decide_eq_true_eq]
          omega)
      rw [h1, List.nil_append, ih (k + 1) b hk1 (by simp at hlt ⊢; omega)]
      congr 1
      have : b - k = (b - (k + 1)) + 1 := by omega
      rw [this]
      rfl

theorem reactD_col_lb (js : List JointRec) : ∀ (m : ℤ), ∀ p ∈ reactD m js, m + 1 ≤ p.2.1 := by
  induction js with
  | nil => intro m p hp; simp [reactD] at hp
  | cons jr rest ih =>
    intro m p hp
    unfold reactD at hp
    by_cases hsup : jr.sup = 1
    · rw [if_pos hsup] at hp
      rcases List.mem_cons.mp hp with h | h
      · rw [h]
      · rcases List.mem_cons.mp h with h2 | h2
        · rw [h2]
          show m + 1 ≤ m + 2
          omega
        · have := ih (m + 2) p h2
          omega
    · rw [if_neg hsup] at hp
      exact ih m p hp

theorem supCount_cons_sup (jr : JointRec) (rest : List JointRec) (h : jr.sup = 1) :
    supCount (jr :: rest) = supCount rest + 1 := by
  simp [supCount, h]

theorem supCount_cons_nsup (jr : JointRec) (rest : List JointRec) (h : ¬jr.sup = 1) :
    supCount (jr :: rest) = supCount rest := by
  simp [supCount, h]

theorem jointLoop_ok (js : List JointRec) : ∀ (tr : List Triple) (sol : List ℚ) (m : ℤ),
    maxI (colsOf tr) = .ok m →
    (∀ jr ∈ js, 1 ≤ ratTrunc jr.jid ∧ 2 * ratTrunc jr.jid ≤ (sol.length : ℤ)) →
    ∃ sol', jointLoop tr sol js = .ok (tr ++ reactD m js, sol')
      ∧ sol'.length = sol.length
      ∧ maxI (colsOf (tr ++ reactD m js)) = .ok (m + 2 * supCount js) := by
  induction js with
  | nil =>
    intro tr sol m hm _
    refine ⟨sol, by simp [jointLoop, reactD], rfl, ?_⟩
    simpa [reactD, supCount] using hm
  | cons jr rest ih =>
    intro tr sol m hm hids
    obtain ⟨hid1, hid2⟩ := hids jr (by simp)
    have hstep1 : ∃ sol1,
        (if jr.fx ≠ 0 then npSet sol (ratTrunc jr.jid * 2 - 2) (-jr.fx) else .ok sol) = .ok sol1
        ∧ sol1.length = sol.length := by
      by_cases hfx : jr.fx = 0
      · exact ⟨sol, by simp [hfx], rfl⟩
      · refine ⟨sol.set (ratTrunc jr.jid * 2 - 2).toNat (-jr.fx), ?_, by simp⟩
        rw [if_pos hfx]
        exact npSet_in sol _ _ (by omega) (by omega)
    obtain ⟨sol1, heq1, hlen1⟩ := hstep1
    have hstep2 : ∃ sol2,
        (if jr.fy ≠ 0 then npSet sol1 (ratTrunc jr.jid * 2 - 1) (-jr.fy) else .ok sol1) = .ok sol2
        ∧ sol2.length = sol.length := by
      by_cases hfy : jr.fy = 0
      · exact ⟨sol1, by simp [hfy], hlen1⟩
      · refine ⟨sol1.set (ratTrunc jr.jid * 2 - 1).toNat (-jr.fy), ?_, by simp [hlen1]⟩
        rw [if_pos hfy]
        exact npSet_in sol1 _ _ (by omega) (by rw [hlen1]; omega)
    obtain ⟨sol2, heq2, hlen2⟩ := hstep2
    have hids2 : ∀ j ∈ rest, 1 ≤ ratTrunc j.jid ∧ 2 * ratTrunc j.jid ≤ (sol2.length : ℤ) := by
      intro j hj
      rw [hlen2]
      exact hids j (by simp [hj])
    by_cases hsup : jr.sup = 1
    · have hm1 : maxI (colsOf (tr ++ [(ratTrunc jr.jid * 2 - 2, m + 1, (1 : ℚ))]))
          = .ok (m + 1) := by
        have : colsOf (tr ++ [(ratTrunc jr.jid * 2 - 2, m + 1, (1 : ℚ))])
            = colsOf tr ++ [m + 1] := by simp [colsOf]
        rw [this, maxI_append_one (colsOf tr) (m + 1) m hm, max_eq_right (by omega)]
      have hm2 : maxI (colsOf ((tr ++ [(ratTrunc jr.jid * 2 - 2, m + 1, (1 : ℚ))])
            ++ [(ratTrunc jr.jid * 2 - 1, (m + 1) + 1, (1 : ℚ))]))
          = .ok (m + 2) := by
        have hcols : colsOf ((tr ++ [(ratTrunc jr.jid * 2 - 2, m + 1, (1 : ℚ))])
              ++ [(ratTrunc jr.jid * 2 - 1, (m + 1) + 1, (1 : ℚ))])
            = colsOf (tr ++ [(ratTrunc jr.jid * 2 - 2, m + 1, (1 : ℚ))]) ++ [m + 1 + 1] := by
          simp [colsOf]
        rw [hcols, maxI_append_one _ (m + 1 + 1) (m + 1) hm1, max_eq_right (by omega),
          show m + 1 + 1 = m + 2 by ring]
      obtain ⟨sol', hloop, hlen', hmax'⟩ := ih
        ((tr ++ [(ratTrunc jr.jid * 2 - 2, m + 1, (1 : ℚ))])
          ++ [(ratTrunc jr.jid * 2 - 1, (m + 1) + 1, (1 : ℚ))]) sol2 (m + 2) hm2 hids2
      have hlist : ((tr ++ [(ratTrunc jr.jid * 2 - 2, m + 1, (1 : ℚ))])
            ++ [(ratTrunc jr.jid * 2 - 1, (m + 1) + 1, (1 : ℚ))]) ++ reactD (m + 2) rest
          = tr ++ reactD m (jr :: rest) := by
        simp only [reactD]
        rw [if_pos hsup]
        simp only [List.append_assoc, List.cons_append, List.singleton_append, List.nil_append]
        rw [show m + 1 + 1 = m + 2 by ring]
      refine ⟨sol', ?_, by rw [hlen', hlen2], ?_⟩
      · simp only [jointLoop, heq1, heq2]
        rw [if_pos hsup]
        simp only [hm, hm1]
        rw [← hlist]
        exact hloop
      · rw [← hlist]
        rw [hmax', supCount_cons_sup jr rest hsup]
        congr 1
        push_cast
        ring
    · obtain ⟨sol', hloop, hlen', hmax'⟩ := ih tr sol2 m hm hids2
      have hre : reactD m (jr :: rest) = reactD m rest := by
        simp only [reactD]
        rw [if_neg hsup]
      refine ⟨sol', ?_, by rw [hlen', hlen2], ?_⟩
      · simp only [jointLoop, heq1, heq2]
        rw [if_neg hsup, hre]
        exact hloop
      · rw [hre, hmax', supCount_cons_nsup jr rest hsup]

theorem beamLoopD_ne_nil (sq : ℚ → ℚ) (joints : List JointRec) (bs : List BeamRec)
    (h : bs ≠ []) (k : ℕ) : beamLoopD sq joints k bs ≠ [] := by
  cases bs with
  | nil => exact absurd rfl h
  | cons br rest =>
    simp only [beamLoopD]
    simp [beamEntriesD]

theorem beamLoopD_col_mem (sq : ℚ → ℚ) (joints : List JointRec) (bs : List BeamRec) :
    ∀ (k : ℕ), bs ≠ [] → ((k : ℤ) + bs.length - 1) ∈ colsOf (beamLoopD sq joints k bs) := by
  induction bs with
  | nil => intro k h; exact absurd rfl h
  | cons br rest ih =>
    intro k _
    by_cases hr : rest = []
    · subst hr
      have : ((k : ℤ) + ([br] : List BeamRec).length - 1) = (k : ℤ) := by
        simp
      rw [this]
      simp [beamLoopD, beamEntriesD, colsOf]
    · have hmem := ih (k + 1) hr
      have harith : ((k + 1 : ℕ) : ℤ) + rest.length - 1
          = (k : ℤ) + (br :: rest).length - 1 := by
        simp only [List.length_cons]
        push_cast
        ring
      rw [harith] at hmem
      simp only [beamLoopD, colsOf, List.map_append, List.mem_append]
      exact Or.inr hmem

theorem colsOf_beamLoopD_max (sq : ℚ → ℚ) (joints : List JointRec) (bs : List BeamRec)
    (h : bs ≠ []) (k : ℕ) :
    maxI (colsOf (beamLoopD sq joints k bs)) = .ok ((k : ℤ) + bs.length - 1) := by
  apply maxI_eq_of
  · exact beamLoopD_col_mem sq joints bs k h
  · intro y hy
    obtain ⟨p, hp, hpy⟩ := List.mem_map.mp hy
    have := (beamLoopD_col_bound sq joints bs k p hp).2
    omega

theorem wf_mem_id (t : Truss) (hw : WF t) :
    ∀ jr ∈ t.joints, 1 ≤ ratTrunc jr.jid ∧ ratTrunc jr.jid ≤ (t.joints.length : ℤ) := by
  intro jr hj
  obtain ⟨⟨i, hi⟩, hg⟩ := List.mem_iff_get.mp hj
  have hid := hw.1 i hi
  have hgd : t.joints.getD i default = jr := by
    rw [List.getD_eq_getElem t.joints default hi]
    simpa using hg
  rw [hgd] at hid
  rw [hid]
  omega

theorem assemble_char (sq : ℚ → ℚ) (t : Truss) (hw : WF t) (hb : t.beams ≠ []) :
    ∃ sol' mr,
      assemble sq t = .ok (beamLoopD sq t.joints 0 t.beams
          ++ reactD ((t.beams.length : ℤ) - 1) t.joints, sol', mr,
          ((t.beams.length : ℤ) - 1) + 2 * supCount t.joints)
      ∧ maxI (rowsOf (beamLoopD sq t.joints 0 t.beams
          ++ reactD ((t.beams.length : ℤ) - 1) t.joints)) = .ok mr := by
  have hbl := beamLoop_ok sq t.joints t.beams hw.2 0
  have hm0 := colsOf_beamLoopD_max sq t.joints t.beams hb 0
  have hm0' : maxI (colsOf (beamLoopD sq t.joints 0 t.beams))
      = .ok ((t.beams.length : ℤ) - 1) := by
    rw [hm0]
    norm_num
  have hids : ∀ jr ∈ t.joints, 1 ≤ ratTrunc jr.jid
      ∧ 2 * ratTrunc jr.jid ≤ ((List.replicate (2 * t.joints.length) (0 : ℚ)).length : ℤ) := by
    intro jr hj
    have := wf_mem_id t hw jr hj
    rw [List.length_replicate]
    push_cast
    omega
  obtain ⟨sol', hjl, _, hmaxc⟩ := jointLoop_ok t.joints (beamLoopD sq t.joints 0 t.beams)
    (List.replicate (2 * t.joints.length) 0) ((t.beams.length : ℤ) - 1) hm0' hids
  have hrne : rowsOf (beamLoopD sq t.joints 0 t.beams
      ++ reactD ((t.beams.length : ℤ) - 1) t.joints) ≠ [] := by
    simp only [rowsOf, List.map_append, ne_eq, List.append_eq_nil, not_and_or]
    left
    simp only [List.map_eq_nil_iff]
    exact beamLoopD_ne_nil sq t.joints t.beams hb 0
  obtain ⟨mr, hmr⟩ := maxI_of_ne_nil _ hrne
  refine ⟨sol', mr, ?_, hmr⟩
  simp only [assemble, hbl, hjl, hmr, hmaxc]

/-- Claim C4: for a beam `b` joining joints `j1`, `j2` at distinct
coordinates, when the numeric square root is exact on the squared beam
length, the assembler places exactly four coefficients in column `b`: the
components of `(dx, dy) / nrm` (with `dx = x(j1) - x(j2)`,
`dy = y(j1) - y(j2)` and `nrm` the positive norm) in the x- and y-rows of
`j1`, and the mirrored components in the two rows of `j2`; no other row
of the assembled system carries a coefficient for that beam. -/
theorem truss_C4 (sq : ℚ → ℚ) (t : Truss) (b : ℕ) (br : BeamRec) (j1 j2 : JointRec) (nrm : ℚ)
    (hw : WF t) (hbr : t.beams[b]? = some br)
    (hj1 : npGet t.joints (br.ja - 1) = .ok j1)
    (hj2 : npGet t.joints (br.jb - 1) = .ok j2)
    (hne : ¬(j1.x = j2.x ∧ j1.y = j2.y))
    (hnrm : nrm * nrm = (j1.x - j2.x) ^ 2 + (j1.y - j2.y) ^ 2)
    (hpos : 0 < nrm)
    (hsq : sq ((j1.x - j2.x) ^ 2 + (j1.y - j2.y) ^ 2) = nrm) :
    Except.map (List.filter (fun p => decide (p.2.1 = (b : ℤ)))) (asmTriples sq t)
      = .ok [(ratTrunc j1.jid * 2 - 2, (b : ℤ), (j1.x - j2.x) / nrm),
             (ratTrunc j1.jid * 2 - 1, (b : ℤ), (j1.y - j2.y) / nrm),
             (ratTrunc j2.jid * 2 - 2, (b : ℤ), (j2.x - j1.x) / nrm),
             (ratTrunc j2.jid * 2 - 1, (b : ℤ), (j2.y - j1.y) / nrm)] := by
  have hblt : b < t.beams.length := (List.getElem?_eq_some_iff.mp hbr).1
  have hb : t.beams ≠ [] := by
    intro h
    rw [h] at hblt
    simp at hblt
  obtain ⟨sol', mr, hasm, _⟩ := assemble_char sq t hw hb
  have hfb : (beamLoopD sq t.joints 0 t.beams).filter (fun p => decide (p.2.1 = (b : ℤ)))
      = beamEntriesD sq t.joints b (t.beams.getD (b - 0) default) := by
    exact beamLoopD_filter sq t.joints t.beams 0 b (by omega) (by omega)
  have hgd : t.beams.getD (b - 0) default = br := by
    simp only [Nat.sub_zero]
    rw [List.getD_eq_getElem t.beams default hblt]
    exact (List.getElem?_eq_some_iff.mp hbr).2
  have hfr : (reactD ((t.beams.length : ℤ) - 1) t.joints).filter
      (fun p => decide (p.2.1 = (b : ℤ))) = [] := by
    apply List.filter_eq_nil_iff.mpr
    intro p hp
    have := reactD_col_lb t.joints ((t.beams.length : ℤ) - 1) p hp
    simp only [decide_eq_true_eq]
    omega
  have hmem : br ∈ t.beams := List.getElem?_mem hbr
  obtain ⟨_, h2, _, h4⟩ := hw.2 br hmem
  have hja : t.joints.getD (br.ja - 1).toNat default = j1 := by
    rw [npGet_in t.joints (br.ja - 1) (by obtain ⟨h1, _⟩ := hw.2 br hmem; omega)
      (by omega)] at hj1
    exact Except.ok.inj hj1
  have hjb : t.joints.getD (br.jb - 1).toNat default = j2 := by
    rw [npGet_in t.joints (br.jb - 1) (by obtain ⟨_, _, h3, _⟩ := hw.2 br hmem; omega)
      (by omega)] at hj2
    exact Except.ok.inj hj2
  have hrad2 : (j2.x - j1.x) ^ 2 + (j2.y - j1.y) ^ 2
      = (j1.x - j2.x) ^ 2 + (j1.y - j2.y) ^ 2 := by ring
  unfold asmTriples
  rw [hasm]
  simp only [Except.map, List.filter_append, hfb, hfr, List.append_nil]
  rw [hgd]
  unfold beamEntriesD
  rw [hja, hjb]
  dsimp only
  rw [hrad2, hsq]


theorem jointLoop_nil_tr (js : List JointRec) : ∀ (sol0 : List ℚ),
    (∀ jr ∈ js, 1 ≤ ratTrunc jr.jid ∧ 2 * ratTrunc jr.jid ≤ (sol0.length : ℤ)) →
    jointLoop [] sol0 js = .error .maxEmpty
    ∨ ∃ sol', jointLoop [] sol0 js = .ok ([], sol') := by
  induction js with
  | nil => intro sol0 _; exact Or.inr ⟨sol0, rfl⟩
  | cons jr rest ih =>
    intro sol0 hids
    obtain ⟨hid1, hid2⟩ := hids jr (by simp)
    have hstep1 : ∃ sol1,
        (if jr.fx ≠ 0 then npSet sol0 (ratTrunc jr.jid * 2 - 2) (-jr.fx) else .ok sol0)
          = .ok sol1
        ∧ sol1.length = sol0.length := by
      by_cases hfx : jr.fx = 0
      · exact ⟨sol0, by simp [hfx], rfl⟩
      · refine ⟨sol0.set (ratTrunc jr.jid * 2 - 2).toNat (-jr.fx), ?_, by simp⟩
        rw [if_pos hfx]
        exact npSet_in sol0 _ _ (by omega) (by omega)
    obtain ⟨sol1, heq1, hlen1⟩ := hstep1
    have hstep2 : ∃ sol2,
        (if jr.fy ≠ 0 then npSet sol1 (ratTrunc jr.jid * 2 - 1) (-jr.fy) else .ok sol1)
          = .ok sol2
        ∧ sol2.length = sol0.length := by
      by_cases hfy : jr.fy = 0
      · exact ⟨sol1, by simp [hfy], hlen1⟩
      · refine ⟨sol1.set (ratTrunc jr.jid * 2 - 1).toNat (-jr.fy), ?_, by simp [hlen1]⟩
        rw [if_pos hfy]
        exact npSet_in sol1 _ _ (by omega) (by rw [hlen1]; omega)
    obtain ⟨sol2, heq2, hlen2⟩ := hstep2
    by_cases hsup : jr.sup = 1
    · left
      simp only [jointLoop, heq1, heq2]
      rw [if_pos hsup]
      rfl
    · have := ih sol2 (fun j hj => by
        rw [hlen2]
        exact hids j (by simp [hj]))
      rcases this with h | ⟨sol', h⟩
      · left
        simp only [jointLoop, heq1, heq2]
        rw [if_neg hsup]
        exact h
      · right
        refine ⟨sol', ?_⟩
        simp only [jointLoop, heq1, heq2]
        rw [if_neg hsup]
        exact h

/-- Claim C9: on a well-formed geometry with zero beams, `calculate_force`
raises the ValueError coming from `max` of an empty sequence (at the first
reaction-column assignment if some joint is supported, otherwise at the
determinacy comparison) and returns no force sequence, whatever the
solver is: at least one beam is an unstated precondition. -/
theorem truss_C9 (sq : ℚ → ℚ) (t : Truss) (hw : WF t) (hb : t.beams = []) :
    ∀ solver, calculate_force_with solver sq t = .error .maxEmpty := by
  intro solver
  have hids : ∀ jr ∈ t.joints, 1 ≤ ratTrunc jr.jid
      ∧ 2 * ratTrunc jr.jid ≤ ((List.replicate (2 * t.joints.length) (0 : ℚ)).length : ℤ) := by
    intro jr hj
    have := wf_mem_id t hw jr hj
    rw [List.length_replicate]
    push_cast
    omega
  have hjl := jointLoop_nil_tr t.joints (List.replicate (2 * t.joints.length) 0) hids
  have hassem : assemble sq t = .error .maxEmpty := by
    have hbl : beamLoop sq t.joints 0 t.beams = .ok [] := by
      rw [hb]
      rfl
    rcases hjl with h | ⟨sol', h⟩
    · simp only [assemble, hbl, h]
    · simp only [assemble, hbl, h]
      rfl
  unfold calculate_force_with
  rw [hassem]

/-- Witness for C9: the one-joint, zero-beam geometry `c9Truss` makes
`calculate_force` raise the empty-max ValueError. -/
theorem truss_C9_witness :
    calculate_force ratSqrt c9Truss = .error .maxEmpty :=
  truss_C9 ratSqrt c9Truss (by decide) rfl spsolveModel

theorem reactD_filter_nil_of_lt (js : List JointRec) (m c : ℤ) (hc : c < m + 1) :
    (reactD m js).filter (fun p => decide (p.2.1 = c)) = [] := by
  apply List.filter_eq_nil_iff.mpr
  intro p hp
  have := reactD_col_lb js m p hp
  simp only [decide_eq_true_eq]
  omega

theorem reactD_filter (js : List JointRec) : ∀ (m : ℤ) (s : ℕ) (jr : JointRec),
    (js.filter (fun j => decide (j.sup = 1)))[s]? = some jr →
    (reactD m js).filter (fun p => decide (p.2.1 = m + 1 + 2 * s))
      = [(ratTrunc jr.jid * 2 - 2, m + 1 + 2 * s, 1)]
    ∧ (reactD m js).filter (fun p => decide (p.2.1 = m + 2 + 2 * s))
      = [(ratTrunc jr.jid * 2 - 1, m + 2 + 2 * s, 1)] := by
  induction js with
  | nil =>
    intro m s jr h
    simp at h
  | cons j rest ih =>
    intro m s jr h
    by_cases hsup : j.sup = 1
    · have hfil : (j :: rest).filter (fun j2 => decide (j2.sup = 1))
          = j :: rest.filter (fun j2 => decide (j2.sup = 1)) := by
        simp [List.filter_cons, hsup]
      rw [hfil] at h
      have hreact : reactD m (j :: rest)
          = (ratTrunc j.jid * 2 - 2, m + 1, (1 : ℚ)) ::
            (ratTrunc j.jid * 2 - 1, m + 2, (1 : ℚ)) :: reactD (m + 2) rest := by
        simp only [reactD]
        rw [if_pos hsup]
      cases s with
      | zero =>
        have hj : jr = j := by
          simp only [List.getElem?_cons_zero, Option.some.injEq] at h
          exact h.symm
        subst hj
        have ht1 : m + 1 + 2 * ((0 : ℕ) : ℤ) = m + 1 := by push_cast; ring
        have ht2 : m + 2 + 2 * ((0 : ℕ) : ℤ) = m + 2 := by push_cast; ring
        rw [hreact, ht1, ht2]
        constructor
        · rw [List.filter_cons_of_pos (by simp),
            List.filter_cons_of_neg (by simp only [decide_eq_true_eq]; omega),
            reactD_filter_nil_of_lt rest (m + 2) (m + 1) (by omega)]
        · rw [List.filter_cons_of_neg (by simp only [decide_eq_true_eq]; omega),
            List.filter_cons_of_pos (by simp),
            reactD_filter_nil_of_lt rest (m + 2) (m + 2) (by omega)]
      | succ n =>
        have hn : (rest.filter (fun j2 => decide (j2.sup = 1)))[n]? = some jr := by
          simpa using h
        obtain ⟨ih1, ih2⟩ := ih (m + 2) n jr hn
        have ht1 : m + 1 + 2 * ((n + 1 : ℕ) : ℤ) = m + 2 + 1 + 2 * (n : ℤ) := by
          push_cast; ring
        have ht2 : m + 2 + 2 * ((n + 1 : ℕ) : ℤ) = m + 2 + 2 + 2 * (n : ℤ) := by
          push_cast; ring
        rw [hreact, ht1, ht2]
        constructor
        · rw [List.filter_cons_of_neg (by
              simp only [decide_eq_true_eq]
              omega),
            List.filter_cons_of_neg (by
              simp only [decide_eq_true_eq]
              omega)]
          exact ih1
        · rw [List.filter_cons_of_neg (by
              simp only [decide_eq_true_eq]
              omega),
            List.filter_cons_of_neg (by
              simp only [decide_eq_true_eq]
              omega)]
          exact ih2
    · have hfil : (j :: rest).filter (fun j2 => decide (j2.sup = 1))
          = rest.filter (fun j2 => decide (j2.sup = 1)) := by
        simp [List.filter_cons, hsup]
      rw [hfil] at h
      have hreact : reactD m (j :: rest) = reactD m rest := by
        simp only [reactD]
        rw [if_neg hsup]
      rw [hreact]
      exact ih m s jr h

/-- Claim C10: with at least one beam, beam unknowns occupy columns
0..B-1 in beam-record order (column `k` holds exactly the four entries of
beam `k`), and the s-th supported joint (in joint-record order, from 0)
receives its two reaction unknowns at exactly columns `B + 2s` and
`B + 2s + 1`, each a single coefficient 1 placed in that joint's x- and
y-row respectively. -/
theorem truss_C10 (sq : ℚ → ℚ) (t : Truss) (s : ℕ) (jr : JointRec)
    (hw : WF t) (hb : t.beams ≠ [])
    (hs : (t.joints.filter (fun j => decide (j.sup = 1)))[s]? = some jr) :
    Except.map (List.filter (fun p => decide (p.2.1 = (t.beams.length : ℤ) + 2 * s)))
        (asmTriples sq t)
      = .ok [(ratTrunc jr.jid * 2 - 2, (t.beams.length : ℤ) + 2 * s, 1)]
    ∧ Except.map (List.filter (fun p => decide (p.2.1 = (t.beams.length : ℤ) + 2 * s + 1)))
        (asmTriples sq t)
      = .ok [(ratTrunc jr.jid * 2 - 1, (t.beams.length : ℤ) + 2 * s + 1, 1)]
    ∧ ∀ (k : ℕ) (br : BeamRec), t.beams[k]? = some br →
        Except.map (List.filter (fun p => decide (p.2.1 = (k : ℤ)))) (asmTriples sq t)
          = .ok (beamEntriesD sq t.joints k br)
        ∧ ∀ p ∈ beamEntriesD sq t.joints k br, p.2.1 = (k : ℤ) := by
  obtain ⟨sol', mr, hasm, _⟩ := assemble_char sq t hw hb
  have hB1 : 1 ≤ t.beams.length := List.length_pos.mpr hb
  have hbeam_nil : ∀ c : ℤ, (t.beams.length : ℤ) ≤ c →
      (beamLoopD sq t.joints 0 t.beams).filter (fun p => decide (p.2.1 = c)) = [] := by
    intro c hc
    apply List.filter_eq_nil_iff.mpr
    intro p hp
    have := (beamLoopD_col_bound sq t.joints t.beams 0 p hp).2
    simp only [decide_eq_true_eq]
    omega
  obtain ⟨hr1, hr2⟩ := reactD_filter t.joints ((t.beams.length : ℤ) - 1) s jr hs
  refine ⟨?_, ?_, ?_⟩
  · unfold asmTriples
    rw [hasm]
    simp only [Except.map]
    rw [List.filter_append,
      hbeam_nil ((t.beams.length : ℤ) + 2 * s) (by have : (0:ℤ) ≤ (s:ℤ) := Int.natCast_nonneg s; omega),
      List.nil_append,
      show (t.beams.length : ℤ) + 2 * s = ((t.beams.length : ℤ) - 1) + 1 + 2 * s by ring,
      hr1]
  · unfold asmTriples
    rw [hasm]
    simp only [Except.map]
    rw [List.filter_append,
      hbeam_nil ((t.beams.length : ℤ) + 2 * s + 1) (by have : (0:ℤ) ≤ (s:ℤ) := Int.natCast_nonneg s; omega),
      List.nil_append,
      show (t.beams.length : ℤ) + 2 * s + 1 = ((t.beams.length : ℤ) - 1) + 2 + 2 * s by ring,
      hr2]
  · intro k br hbr
    have hklt : k < t.beams.length := (List.getElem?_eq_some_iff.mp hbr).1
    have hgd : t.beams.getD (k - 0) default = br := by
      simp only [Nat.sub_zero]
      rw [List.getD_eq_getElem t.beams default hklt]
      exact (List.getElem?_eq_some_iff.mp hbr).2
    have hfb := beamLoopD_filter sq t.joints t.beams 0 k (by omega) (by omega)
    have hfr : (reactD ((t.beams.length : ℤ) - 1) t.joints).filter
        (fun p => decide (p.2.1 = (k : ℤ))) = [] := by
      apply List.filter_eq_nil_iff.mpr
      intro p hp
      have := reactD_col_lb t.joints ((t.beams.length : ℤ) - 1) p hp
      simp only [decide_eq_true_eq]
      omega
    constructor
    · unfold asmTriples
      rw [hasm]
      simp only [Except.map]
      rw [List.filter_append, hfb, hgd, hfr, List.append_nil]
    · exact beamEntriesD_col sq t.joints k br

/-- Witness for C10: in `solvTruss` (two beams, supported joints 1 and 2
in record order), the 0-th supported joint's reactions sit at columns 2
and 3 with coefficient 1 in rows 0 and 1, and each beam column holds that
beam's four entries. -/
theorem truss_C10_witness :
    Except.map (List.filter (fun p => decide (p.2.1 = (solvTruss.beams.length : ℤ) + 2 * (0 : ℕ))))
        (asmTriples ratSqrt solvTruss)
      = .ok [(ratTrunc (1 : ℚ) * 2 - 2, (solvTruss.beams.length : ℤ) + 2 * (0 : ℕ), 1)]
    ∧ Except.map (List.filter (fun p => decide (p.2.1 = (solvTruss.beams.length : ℤ) + 2 * (0 : ℕ) + 1)))
        (asmTriples ratSqrt solvTruss)
      = .ok [(ratTrunc (1 : ℚ) * 2 - 1, (solvTruss.beams.length : ℤ) + 2 * (0 : ℕ) + 1, 1)]
    ∧ ∀ (k : ℕ) (br : BeamRec), solvTruss.beams[k]? = some br →
        Except.map (List.filter (fun p => decide (p.2.1 = (k : ℤ)))) (asmTriples ratSqrt solvTruss)
          = .ok (beamEntriesD ratSqrt solvTruss.joints k br)
        ∧ ∀ p ∈ beamEntriesD ratSqrt solvTruss.joints k br, p.2.1 = (k : ℤ) :=
  truss_C10 ratSqrt solvTruss 0 ⟨1, 0, 0, 0, 0, 1⟩ (by decide) (by decide)
    (by with_unfolding_all rfl)

theorem wf_getD_id (joints : List JointRec)
    (hwids : ∀ i < joints.length, ratTrunc ((joints.getD i default).jid) = (i : ℤ) + 1)
    (a : ℤ) (h1 : 1 ≤ a) (h2 : a ≤ (joints.length : ℤ)) :
    ratTrunc ((joints.getD (a - 1).toNat default).jid) = a := by
  have hlt : (a - 1).toNat < joints.length := by omega
  have := hwids (a - 1).toNat hlt
  rw [this]
  omega

theorem beamEntriesD_row_bound (sq : ℚ → ℚ) (joints : List JointRec)
    (hwids : ∀ i < joints.length, ratTrunc ((joints.getD i default).jid) = (i : ℤ) + 1)
    (k : ℕ) (br : BeamRec)
    (h1 : 1 ≤ br.ja) (h2 : br.ja ≤ (joints.length : ℤ))
    (h3 : 1 ≤ br.jb) (h4 : br.jb ≤ (joints.length : ℤ)) :
    ∀ p ∈ beamEntriesD sq joints k br, 0 ≤ p.1 ∧ p.1 ≤ 2 * (joints.length : ℤ) - 1 := by
  intro p hp
  have hida := wf_getD_id joints hwids br.ja h1 h2
  have hidb := wf_getD_id joints hwids br.jb h3 h4
  simp only [beamEntriesD, List.mem_cons, List.mem_singleton, List.not_mem_nil, or_false] at hp
  rcases hp with h | h | h | h <;> rw [h] <;> dsimp only
  · rw [hida]; omega
  · rw [hida]; omega
  · rw [hidb]; omega
  · rw [hidb]; omega

theorem beamLoopD_row_bound (sq : ℚ → ℚ) (joints : List JointRec)
    (hwids : ∀ i < joints.length, ratTrunc ((joints.getD i default).jid) = (i : ℤ) + 1)
    (bs : List BeamRec)
    (hbs : ∀ br ∈ bs, 1 ≤ br.ja ∧ br.ja ≤ (joints.length : ℤ)
      ∧ 1 ≤ br.jb ∧ br.jb ≤ (joints.length : ℤ)) :
    ∀ (k : ℕ), ∀ p ∈ beamLoopD sq joints k bs, 0 ≤ p.1 ∧ p.1 ≤ 2 * (joints.length : ℤ) - 1 := by
  induction bs with
  | nil => intro k p hp; simp [beamLoopD] at hp
  | cons br rest ih =>
    intro k p hp
    simp only [beamLoopD, List.mem_append] at hp
    rcases hp with h | h
    · obtain ⟨h1, h2, h3, h4⟩ := hbs br (by simp)
      exact beamEntriesD_row_bound sq joints hwids k br h1 h2 h3 h4 p h
    · exact ih (fun b hb => hbs b (by simp [hb])) (k + 1) p h

theorem reactD_row_bound (js : List JointRec) (bigJ : ℤ)
    (hids : ∀ jr ∈ js, 1 ≤ ratTrunc jr.jid ∧ ratTrunc jr.jid ≤ bigJ) :
    ∀ (m : ℤ), ∀ p ∈ reactD m js, 0 ≤ p.1 ∧ p.1 ≤ 2 * bigJ - 1 := by
  induction js with
  | nil => intro m p hp; simp [reactD] at hp
  | cons jr rest ih =>
    intro m p hp
    obtain ⟨hi1, hi2⟩ := hids jr (by simp)
    unfold reactD at hp
    by_cases hsup : jr.sup = 1
    · rw [if_pos hsup] at hp
      rcases List.mem_cons.mp hp with h | h
      · rw [h]; dsimp only; omega
      · rcases List.mem_cons.mp h with h2 | h2
        · rw [h2]; dsimp only; omega
        · exact ih (fun j hj => hids j (by simp [hj])) (m + 2) p h2
    · rw [if_neg hsup] at hp
      exact ih (fun j hj => hids j (by simp [hj])) m p hp

theorem beamLoopD_mem_row (sq : ℚ → ℚ) (joints : List JointRec) (bs : List BeamRec)
    (br : BeamRec) (hmem : br ∈ bs) : ∀ (k : ℕ),
    (∃ q ∈ beamLoopD sq joints k bs,
      q.1 = ratTrunc ((joints.getD (br.ja - 1).toNat default).jid) * 2 - 1)
    ∧ (∃ q ∈ beamLoopD sq joints k bs,
      q.1 = ratTrunc ((joints.getD (br.jb - 1).toNat default).jid) * 2 - 1) := by
  induction bs with
  | nil => exact absurd hmem (by simp)
  | cons b2 rest ih =>
    intro k
    rcases List.mem_cons.mp hmem with h | h
    · subst h
      constructor
      · refine ⟨(ratTrunc ((joints.getD (br.ja - 1).toNat default).jid) * 2 - 1, (k : ℤ),
          ((joints.getD (br.ja - 1).toNat default).y - (joints.getD (br.jb - 1).toNat default).y)
            / sq (((joints.getD (br.ja - 1).toNat default).x
                - (joints.getD (br.jb - 1).toNat default).x) ^ 2
              + ((joints.getD (br.ja - 1).toNat default).y
                - (joints.getD (br.jb - 1).toNat default).y) ^ 2)), ?_, rfl⟩
        simp only [beamLoopD, List.mem_append]
        left
        simp [beamEntriesD]
      · refine ⟨(ratTrunc ((joints.getD (br.jb - 1).toNat default).jid) * 2 - 1, (k : ℤ),
          ((joints.getD (br.jb - 1).toNat default).y - (joints.getD (br.ja - 1).toNat default).y)
            / sq (((joints.getD (br.jb - 1).toNat default).x
                - (joints.getD (br.ja - 1).toNat default).x) ^ 2
              + ((joints.getD (br.jb - 1).toNat default).y
                - (joints.getD (br.ja - 1).toNat default).y) ^ 2)), ?_, rfl⟩
        simp only [beamLoopD, List.mem_append]
        left
        simp [beamEntriesD]
    · obtain ⟨⟨q1, hq1, he1⟩, ⟨q2, hq2, he2⟩⟩ := ih h (k + 1)
      refine ⟨⟨q1, ?_, he1⟩, ⟨q2, ?_, he2⟩⟩
      · simp only [beamLoopD, List.mem_append]
        exact Or.inr hq1
      · simp only [beamLoopD, List.mem_append]
        exact Or.inr hq2

theorem reactD_mem_row (js : List JointRec) (jr : JointRec) (hmem : jr ∈ js)
    (hsup : jr.sup = 1) : ∀ (m : ℤ),
    ∃ c, (ratTrunc jr.jid * 2 - 1, c, (1 : ℚ)) ∈ reactD m js := by
  induction js with
  | nil => exact absurd hmem (by simp)
  | cons j rest ih =>
    intro m
    rcases List.mem_cons.mp hmem with h | h
    · subst h
      refine ⟨m + 2, ?_⟩
      unfold reactD
      rw [if_pos hsup]
      simp
    · by_cases hsup2 : j.sup = 1
      · obtain ⟨c, hc⟩ := ih h (m + 2)
        refine ⟨c, ?_⟩
        unfold reactD
        rw [if_pos hsup2]
        simp only [List.mem_cons]
        exact Or.inr (Or.inr hc)
      · obtain ⟨c, hc⟩ := ih h m
        refine ⟨c, ?_⟩
        unfold reactD
        rw [if_neg hsup2]
        exact hc

/-- Claim C5 (amended): with at least one beam, the assembled system has
exactly `(number of beams) + 2 * (number of supported joints)` columns;
and it has `2 * (number of joints)` rows provided the highest-numbered
joint carries a beam or a support (the matrix shape is
`(max(row) + 1, max(col) + 1)`, so rows for trailing uninvolved joints
are not materialised). -/
theorem truss_C5_amended (sq : ℚ → ℚ) (t : Truss) (hw : WF t) (hb : t.beams ≠ [])
    (hlast : (∃ br ∈ t.beams, br.ja = (t.joints.length : ℤ) ∨ br.jb = (t.joints.length : ℤ))
      ∨ ((t.joints.getD (t.joints.length - 1) default).sup = 1 ∧ t.joints ≠ [])) :
    asmDims sq t = .ok (2 * (t.joints.length : ℤ),
      (t.beams.length : ℤ) + 2 * supCount t.joints) := by
  obtain ⟨sol', mr, hasm, hmr⟩ := assemble_char sq t hw hb
  have hwids := hw.1
  have hbnds := hw.2
  have hidmem := wf_mem_id t hw
  have hbound : ∀ y ∈ rowsOf (beamLoopD sq t.joints 0 t.beams
      ++ reactD ((t.beams.length : ℤ) - 1) t.joints), y ≤ 2 * (t.joints.length : ℤ) - 1 := by
    intro y hy
    obtain ⟨p, hp, hpy⟩ := List.mem_map.mp hy
    rcases List.mem_append.mp hp with h | h
    · have := beamLoopD_row_bound sq t.joints hwids t.beams hbnds 0 p h
      omega
    · have := reactD_row_bound t.joints (t.joints.length : ℤ) hidmem
        ((t.beams.length : ℤ) - 1) p h
      omega
  have hmem : (2 * (t.joints.length : ℤ) - 1) ∈ rowsOf (beamLoopD sq t.joints 0 t.beams
      ++ reactD ((t.beams.length : ℤ) - 1) t.joints) := by
    rcases hlast with ⟨br, hbrm, hor⟩ | ⟨hsup, hjne⟩
    · obtain ⟨hq1, hq2⟩ := beamLoopD_mem_row sq t.joints t.beams br hbrm 0
      obtain ⟨h1, h2, h3, h4⟩ := hbnds br hbrm
      rcases hor with hja | hjb
      · obtain ⟨q, hq, he⟩ := hq1
        apply List.mem_map.mpr
        refine ⟨q, List.mem_append.mpr (Or.inl hq), ?_⟩
        rw [he, wf_getD_id t.joints hwids br.ja h1 h2, hja]
        ring
      · obtain ⟨q, hq, he⟩ := hq2
        apply List.mem_map.mpr
        refine ⟨q, List.mem_append.mpr (Or.inl hq), ?_⟩
        rw [he, wf_getD_id t.joints hwids br.jb h3 h4, hjb]
        ring
    · have hJpos : 0 < t.joints.length := List.length_pos.mpr hjne
      have hjrmem : t.joints.getD (t.joints.length - 1) default ∈ t.joints := by
        rw [List.getD_eq_getElem t.joints default (by omega)]
        exact List.getElem_mem _
      obtain ⟨c, hc⟩ := reactD_mem_row t.joints (t.joints.getD (t.joints.length - 1) default)
        hjrmem hsup ((t.beams.length : ℤ) - 1)
      apply List.mem_map.mpr
      refine ⟨(ratTrunc (t.joints.getD (t.joints.length - 1) default).jid * 2 - 1, c, (1 : ℚ)),
        List.mem_append.mpr (Or.inr hc), ?_⟩
      have := hwids (t.joints.length - 1) (by omega)
      dsimp only
      rw [this]
      have : ((t.joints.length - 1 : ℕ) : ℤ) = (t.joints.length : ℤ) - 1 := by omega
      rw [this]
      ring
  have hmr2 := maxI_eq_of _ _ hmem hbound
  have : mr = 2 * (t.joints.length : ℤ) - 1 := by
    rw [hmr] at hmr2
    exact Except.ok.inj hmr2
  subst this
  unfold asmDims
  rw [hasm]
  simp only [Except.map]
  rw [show 2 * (t.joints.length : ℤ) - 1 + 1 = 2 * (t.joints.length : ℤ) by ring,
    show (t.beams.length : ℤ) - 1 + 2 * (supCount t.joints : ℤ) + 1
      = (t.beams.length : ℤ) + 2 * (supCount t.joints : ℤ) by ring]

/-- Witness for the amended C5: in `solvTruss` the last joint carries both
beams, and the assembled shape is (2 x 3, 2 + 2 x 2) = (6, 6). -/
theorem truss_C5_amended_witness :
    asmDims ratSqrt solvTruss = .ok (2 * (solvTruss.joints.length : ℤ),
      (solvTruss.beams.length : ℤ) + 2 * supCount solvTruss.joints) :=
  truss_C5_amended ratSqrt solvTruss (by decide) (by decide)
    (Or.inl ⟨⟨1, 1, 3⟩, by decide, Or.inr (by decide)⟩)

/-- Witness for C4: in `solvTruss`, beam 1 joins joint 2 at (4, 0) to
joint 3 at (0, 3); its length is 5 and column 1 of the assembled system
carries exactly the four unit-vector components (4/5, -3/5) at joint 2's
rows and (-4/5, 3/5) at joint 3's rows. -/
theorem truss_C4_witness :
    Except.map (List.filter (fun p => decide (p.2.1 = ((1 : ℕ) : ℤ))))
        (asmTriples ratSqrt solvTruss)
      = .ok [(2, ((1 : ℕ) : ℤ), 4/5), (3, ((1 : ℕ) : ℤ), -3/5),
             (4, ((1 : ℕ) : ℤ), -4/5), (5, ((1 : ℕ) : ℤ), 3/5)] := by
  have h := truss_C4 ratSqrt solvTruss 1 ⟨2, 2, 3⟩ ⟨2, 4, 0, 0, 0, 1⟩ ⟨3, 0, 3, 0, -100, 0⟩ 5
    (by decide) (by with_unfolding_all rfl) (by with_unfolding_all rfl)
    (by with_unfolding_all rfl) (by with_unfolding_all decide)
    (by with_unfolding_all decide) (by with_unfolding_all decide)
    (by with_unfolding_all rfl)
  with_unfolding_all exact h
